import Mathlib

/-!
Verification development for the MailMind email-assistant repository.

The repository ships a Next.js frontend (`src/frontend`, `src/unnamed/part_000`
and friends) together with a product-requirements document describing a
three-phase agent pipeline (Learning / Execution / Evolution) served by a
backend that is not part of the source tree.  Frontend behaviour is embedded
directly from the TypeScript source; the backend pipeline components
(MatchEngine, EscalationPolicy, LearningJob, EvolutionJob, batch execution)
are modelled from the specification, as flagged on each definition.
-/

namespace MailMind

/-! ## Frontend inbox (src/unnamed/part_000, `Home`) -/

/-- The `Email` record used by the inbox page (`src/unnamed/part_000`,
interface `Email`). -/
structure InboxEmail where
  id : String
  zoho_id : String
  from_address : String
  from_name : String
  subject : String
  body : String
  received_at : String
  processed : Bool
deriving DecidableEq

/-- The three inbox filter tabs (`filter` state of `Home`). -/
inductive EmailFilter where
  | all
  | pending
  | processed
deriving DecidableEq

/-- Embeds `filteredEmails` from `src/unnamed/part_000` lines 238-242:
`emails.filter` keeping `!email.processed` for the pending tab,
`email.processed` for the processed tab and everything for the all tab. -/
def filteredEmails (filter : EmailFilter) (emails : List InboxEmail) : List InboxEmail :=
  emails.filter fun email =>
    match filter with
    | .pending => !email.processed
    | .processed => email.processed
    | .all => true

/-- Embeds the tab counters of `src/unnamed/part_000` lines 376-380:
All shows `emails.length`, Pending counts `!e.processed`, Done counts
`e.processed`. -/
def tabCount : EmailFilter → List InboxEmail → Nat
  | .all, emails => emails.length
  | .pending, emails => (emails.filter fun e => !e.processed).length
  | .processed, emails => (emails.filter fun e => e.processed).length

/-! ## Frontend API client (src/frontend/lib/api.ts) -/

/-- The object form of the `syncEmails` argument
(`src/frontend/lib/api.ts` line 131): every field is optional, and both the
camelCase and the snake_case spellings are admitted. -/
structure SyncOptionsObj where
  count : Option Int
  syncRange : Option String
  sync_range : Option String
  fromDate : Option String
  from_date : Option String
  toDate : Option String
  to_date : Option String
deriving DecidableEq

/-- `syncEmails` accepts either a bare number or an options object
(`typeof options === 'number'` test in the source). -/
inductive SyncEmailsArg where
  | num (n : Int)
  | obj (o : SyncOptionsObj)
deriving DecidableEq

/-- The JSON request body built by `syncEmails`; absent keys are `none`. -/
structure SyncBody where
  count : Option Int
  sync_range : Option String
  from_date : Option String
  to_date : Option String
deriving DecidableEq

/-- JavaScript `a || b` on two possibly-absent strings: `a` wins unless it is
absent (`undefined`) or falsy (the empty string). -/
def jsOrStr (a b : Option String) : Option String :=
  match a with
  | some s => if s = "" then b else some s
  | none => b

/-- JavaScript `a || d` on a possibly-absent number with a number default:
`a` wins unless absent or falsy (`0`). -/
def jsOrInt (a : Option Int) (d : Int) : Int :=
  match a with
  | some n => if n = 0 then d else n
  | none => d

/-- Embeds the body construction of `syncEmails`
(`src/frontend/lib/api.ts` lines 131-142): a numeric argument produces
`{count: n}`; an object argument produces
`{count: options.count || 500, sync_range: options.sync_range ||
options.syncRange, from_date: options.from_date || options.fromDate,
to_date: options.to_date || options.toDate}`. -/
def syncEmailsBody : SyncEmailsArg → SyncBody
  | .num n => { count := some n, sync_range := none, from_date := none, to_date := none }
  | .obj o =>
    { count := some (jsOrInt o.count 500)
      sync_range := jsOrStr o.sync_range o.syncRange
      from_date := jsOrStr o.from_date o.fromDate
      to_date := jsOrStr o.to_date o.toDate }

/-- The response type declared for `api.generateReply`
(`src/frontend/lib/api.ts` lines 180-187).  The `confidence` field is
declared `number` in the source, hence an arbitrary rational here. -/
structure GenerateReplyResponse where
  email_id : String
  reply_id : String
  ai_draft : String
  matched_skills : List String
  confidence : ℚ
  requires_review : Bool
deriving DecidableEq

/-! ## Frontend i18n (src/frontend/lib/LanguageContext.tsx and i18n.ts) -/

/-- The `Language` union type of `i18n.ts`. -/
inductive Language where
  | zh
  | ja
  | en
deriving DecidableEq

/-- The `zh` translation table of `i18n.ts`, as an association list. -/
def zhTable : List (String × String) :=
  [("connected", "已连接"),
   ("notConnected", "未连接"),
   ("settings", "设置"),
   ("connectZoho", "连接 Zoho"),
   ("syncEmails", "同步邮件"),
   ("syncing", "同步中..."),
   ("syncAndLearn", "同步并学习"),
   ("analyzing", "分析中..."),
   ("analyzePriority", "分析重点"),
   ("all", "全部"),
   ("pending", "待处理"),
   ("processed", "已完成"),
   ("priority", "重点"),
   ("noEmailSelected", "未选择邮件"),
   ("selectEmailHint", "从列表中选择一封邮件查看详情"),
   ("skillLibrary", "技能库"),
   ("skillsLoaded", "个技能已加载"),
   ("keywords", "关键词"),
   ("generateReply", "生成回复"),
   ("generating", "生成中..."),
   ("send", "发送"),
   ("sending", "发送中..."),
   ("syncOptions", "同步选项"),
   ("syncRange", "同步范围"),
   ("last7days", "最近7天"),
   ("last30days", "最近30天"),
   ("last90days", "最近90天"),
   ("clearAll", "清空全部"),
   ("cancel", "取消"),
   ("confirm", "确认"),
   ("loading", "加载中..."),
   ("loadingInbox", "正在加载收件箱..."),
   ("language", "语言"),
   ("categories", "分类"),
   ("totalUsage", "总使用"),
   ("noSkillsYet", "还没有技能"),
   ("syncToGenerateSkills", "同步邮件并运行学习以生成技能"),
   ("skillDescription", "技能描述"),
   ("triggerKeywords", "触发关键词"),
   ("more", "更多"),
   ("processingRules", "处理规则"),
   ("rule", "规则"),
   ("moreRules", "还有 {count} 条规则..."),
   ("successRate", "成功率"),
   ("status", "状态"),
   ("enabled", "启用"),
   ("disabled", "禁用"),
   ("sourceEmails", "来源邮件"),
   ("initialLearning", "初学"),
   ("evolution", "进化"),
   ("moreSourceEmails", "还有 {count} 封来源邮件..."),
   ("noSourceEmails", "暂无来源邮件记录"),
   ("usageCount", "次使用")]

/-- The `ja` translation table of `i18n.ts`. -/
def jaTable : List (String × String) :=
  [("connected", "接続済み"),
   ("notConnected", "未接続"),
   ("settings", "設定"),
   ("connectZoho", "Zoho 接続"),
   ("syncEmails", "メール同期"),
   ("syncing", "同期中..."),
   ("syncAndLearn", "同期＆学習"),
   ("analyzing", "分析中..."),
   ("analyzePriority", "重要度分析"),
   ("all", "すべて"),
   ("pending", "未処理"),
   ("processed", "完了"),
   ("priority", "重要"),
   ("noEmailSelected", "メールを選択してください"),
   ("selectEmailHint", "リストからメールを選択すると詳細が表示されます"),
   ("skillLibrary", "スキルライブラリ"),
   ("skillsLoaded", "個のスキルがロード済み"),
   ("keywords", "キーワード"),
   ("generateReply", "返信を生成"),
   ("generating", "生成中..."),
   ("send", "送信"),
   ("sending", "送信中..."),
   ("syncOptions", "同期オプション"),
   ("syncRange", "同期範囲"),
   ("last7days", "過去7日間"),
   ("last30days", "過去30日間"),
   ("last90days", "過去90日間"),
   ("clearAll", "すべて削除"),
   ("cancel", "キャンセル"),
   ("confirm", "確認"),
   ("loading", "読み込み中..."),
   ("loadingInbox", "受信トレイを読み込んでいます..."),
   ("language", "言語"),
   ("categories", "カテゴリ"),
   ("totalUsage", "総使用数"),
   ("noSkillsYet", "スキルがありません"),
   ("syncToGenerateSkills", "メールを同期して学習を実行するとスキルが生成されます"),
   ("skillDescription", "スキル説明"),
   ("triggerKeywords", "トリガーキーワード"),
   ("more", "もっと"),
   ("processingRules", "処理ルール"),
   ("rule", "ルール"),
   ("moreRules", "他に {count} 件のルール..."),
   ("successRate", "成功率"),
   ("status", "ステータス"),
   ("enabled", "有効"),
   ("disabled", "無効"),
   ("sourceEmails", "ソースメール"),
   ("initialLearning", "初期学習"),
   ("evolution", "進化"),
   ("moreSourceEmails", "他に {count} 件のソースメール..."),
   ("noSourceEmails", "ソースメールの記録がありません"),
   ("usageCount", "回使用")]

/-- The `en` translation table of `i18n.ts`. -/
def enTable : List (String × String) :=
  [("connected", "Connected"),
   ("notConnected", "Not connected"),
   ("settings", "Settings"),
   ("connectZoho", "Connect Zoho"),
   ("syncEmails", "Sync Emails"),
   ("syncing", "Syncing..."),
   ("syncAndLearn", "Sync & Learn"),
   ("analyzing", "Analyzing..."),
   ("analyzePriority", "Analyze Priority"),
   ("all", "All"),
   ("pending", "Pending"),
   ("processed", "Processed"),
   ("priority", "Priority"),
   ("noEmailSelected", "No email selected"),
   ("selectEmailHint", "Select an email from the list to view details"),
   ("skillLibrary", "Skill Library"),
   ("skillsLoaded", "skills loaded"),
   ("keywords", "Keywords"),
   ("generateReply", "Generate Reply"),
   ("generating", "Generating..."),
   ("send", "Send"),
   ("sending", "Sending..."),
   ("syncOptions", "Sync Options"),
   ("syncRange", "Sync Range"),
   ("last7days", "Last 7 days"),
   ("last30days", "Last 30 days"),
   ("last90days", "Last 90 days"),
   ("clearAll", "Clear All"),
   ("cancel", "Cancel"),
   ("confirm", "Confirm"),
   ("loading", "Loading..."),
   ("loadingInbox", "Loading your inbox..."),
   ("language", "Language"),
   ("categories", "Categories"),
   ("totalUsage", "Total Usage"),
   ("noSkillsYet", "No skills yet"),
   ("syncToGenerateSkills", "Sync emails and run learning to generate skills"),
   ("skillDescription", "Description"),
   ("triggerKeywords", "Trigger Keywords"),
   ("more", "more"),
   ("processingRules", "Processing Rules"),
   ("rule", "Rule"),
   ("moreRules", "{count} more rules..."),
   ("successRate", "Success Rate"),
   ("status", "Status"),
   ("enabled", "Enabled"),
   ("disabled", "Disabled"),
   ("sourceEmails", "Source Emails"),
   ("initialLearning", "Initial"),
   ("evolution", "Evolution"),
   ("moreSourceEmails", "{count} more source emails..."),
   ("noSourceEmails", "No source email records"),
   ("usageCount", "uses")]

/-- The `translations` object of `i18n.ts`, keyed by language. -/
def translations : Language → List (String × String)
  | .zh => zhTable
  | .ja => jaTable
  | .en => enTable

/-- Lookup of one key in one language's table; `none` models a key that is
absent at runtime (`translations[language][key]` being `undefined`). -/
def lookupTr (lang : Language) (key : String) : Option String :=
  (translations lang).lookup key

/-- The `TranslationKey` type of `i18n.ts` is `keyof typeof translations.zh`:
the keys of the `zh` table. -/
def translationKeys : List String := zhTable.map Prod.fst

/-- JavaScript `a || fb` where `a` is a possibly-undefined string and the
fallback has already been materialised to a string. -/
def jsFallback (a : Option String) (fb : String) : String :=
  match a with
  | some s => if s = "" then fb else s
  | none => fb

/-- Embeds `t` from `src/frontend/lib/LanguageContext.tsx` lines 32-34:
`translations[language][key] || translations.en[key] || key`. -/
def t (lang : Language) (key : String) : String :=
  jsFallback (lookupTr lang key) (jsFallback (lookupTr Language.en key) key)

/-! ## Backend pipeline, modelled from the specification

The agent pipeline (MatchEngine, EscalationPolicy, LearningJob, EvolutionJob,
JobScheduler) is served by a backend whose source is not part of this
repository: only the frontend API client and the product documents refer to
it.  The definitions below are therefore modelled from the specification. -/

/-- Lower-casing of a string, character by character (models the
case-insensitive comparisons the spec prescribes, `toLowerCase` in
TypeScript). -/
def lowerString (s : String) : String :=
  String.mk (s.data.map Char.toLower)

/-- Modelled from the spec: email tokenization splits the lower-cased text on
non-alphanumeric boundaries, dropping empty fragments (spec section 4.1). -/
def splitTokens : List Char → List Char → List String
  | [], acc => if acc = [] then [] else [String.mk acc.reverse]
  | c :: cs, acc =>
    if c.isAlphanum then splitTokens cs (c :: acc)
    else if acc = [] then splitTokens cs []
    else String.mk acc.reverse :: splitTokens cs []

/-- Modelled from the spec: the token set of an email text (spec section 4.1,
case-insensitive tokenization on non-alphanumeric boundaries, no stemming). -/
def emailTokens (text : String) : Finset String :=
  (splitTokens (lowerString text).data []).toFinset

/-- The `Rule` record of the data model (spec section 3); `created_at` is the
creation order used as the final tie-break. -/
structure Rule where
  id : String
  name : String
  trigger_keywords : Finset String
  conditions : Finset String
  action_steps : List String
  response_template : String
  priority : Int
  usage_count : Nat
  success_count : Nat
  created_at : Nat
deriving DecidableEq

/-- The `Skill` record of the data model (spec section 3 and the frontend
`Skill` interface, which carries both `name` and `name_en`). -/
structure Skill where
  id : String
  name : String
  name_en : String
  category : String
  trigger_keywords : Finset String
  rules : List Rule
  usage_count : Nat
  success_count : Nat
  is_active : Bool
  version : Nat
deriving DecidableEq

/-- The `Email` record of the data model (spec section 3). -/
structure Email where
  id : String
  sender : String
  subject : String
  body : String
  received_at : String
  category : Option String
  is_customer_service : Bool
  processed : Bool
deriving DecidableEq

/-- One entry of the ranked list returned by `match` (spec section 4.1). -/
structure RuleMatch where
  skill_id : String
  rule_id : String
  score : ℚ
  matched_keywords : Finset String
  priority : Int
  created_at : Nat
deriving DecidableEq

/-- Modelled from the spec: the keywords of a rule found among the email
tokens (spec section 4.1). -/
def matchedKeywords (r : Rule) (tokens : Finset String) : Finset String :=
  r.trigger_keywords ∩ tokens

/-- Modelled from the spec: `score = |matched_keywords ∩ email_tokens| /
|rule.trigger_keywords|` (spec section 4.1). -/
def ruleScore (r : Rule) (tokens : Finset String) : ℚ :=
  ((matchedKeywords r tokens).card : ℚ) / (r.trigger_keywords.card : ℚ)

/-- Modelled from the spec: skill eligibility for an email — active, and
either the classified category matches or, with no category, the skill's
trigger keywords intersect the email tokens (spec section 4.1). -/
def skillEligible (category : Option String) (tokens : Finset String) (s : Skill) : Bool :=
  s.is_active &&
    match category with
    | some c => s.category == c
    | none => decide (s.trigger_keywords ∩ tokens).Nonempty

/-- Modelled from the spec: the descending ranking `(score, priority,
-created_at)` of section 4.1, as a boolean "comes no later than" test. -/
def rankLE (a b : RuleMatch) : Bool :=
  decide (b.score < a.score) ||
    (decide (a.score = b.score) &&
      (decide (b.priority < a.priority) ||
        (decide (a.priority = b.priority) && decide (a.created_at ≤ b.created_at))))

/-- Modelled from the spec: the MatchEngine contract `match(email, category,
skills) -> ranked list<RuleMatch>` (spec section 4.1).  For each eligible
skill and each of its rules one `RuleMatch` is produced, and the result is
sorted descending by `(score, priority, -created_at)`. -/
def matchEngine (email : Email) (category : Option String) (skills : List Skill) :
    List RuleMatch :=
  let tokens := emailTokens email.body
  let results :=
    (skills.filter (skillEligible category tokens)).flatMap fun s =>
      s.rules.map fun r =>
        { skill_id := s.id
          rule_id := r.id
          score := ruleScore r tokens
          matched_keywords := matchedKeywords r tokens
          priority := r.priority
          created_at := r.created_at }
  results.mergeSort rankLE

/-- The terminal decision of the execution pipeline (spec section 4.3). -/
inductive ExecStatus where
  | draft_ready
  | escalate_to_human
deriving DecidableEq

/-- The discretized confidence bucket (spec sections 3 and 4.3). -/
inductive Confidence where
  | high
  | medium
  | low
deriving DecidableEq

/-- Modelled from the spec: `MATCH_THRESHOLD` defaults to 0.5 (spec
section 4.3). -/
def MATCH_THRESHOLD : ℚ := 1/2

/-- Modelled from the spec: `HIGH_CONFIDENCE` defaults to 0.8 (spec
section 4.3). -/
def HIGH_CONFIDENCE : ℚ := 8/10

/-- Modelled from the spec: the top score of a result list (0 when empty;
for MatchEngine's ranked output this is the head's score). -/
def topScore (results : List RuleMatch) : ℚ :=
  (results.map RuleMatch.score).foldr max 0

/-- Modelled from the spec: EscalationPolicy (spec section 4.3).  If at least
one result clears `threshold` the email is `matched` and a draft is produced,
with confidence `high` when the top score reaches `high` and `medium`
otherwise; with no result clearing the threshold the email escalates with
confidence `low`. -/
def escalationPolicy (threshold high : ℚ) (results : List RuleMatch) :
    ExecStatus × Confidence :=
  if results.any fun r => decide (threshold ≤ r.score) then
    if high ≤ topScore results then (ExecStatus.draft_ready, Confidence.high)
    else (ExecStatus.draft_ready, Confidence.medium)
  else (ExecStatus.escalate_to_human, Confidence.low)

/-- The error taxonomy of the execution path (spec section 7). -/
inductive ExecError where
  | classificationFailed (msg : String)
  | templateRender (msg : String)
  | validation (msg : String)
deriving DecidableEq

/-- Modelled from the spec: the per-email result shape of `/agents/execute`
(spec section 6). -/
structure ExecResponse where
  status : ExecStatus
  matched_skills : List String
  matched_rules : List String
  response : String
  confidence : Confidence
  requires_review : Bool
deriving DecidableEq

/-- Modelled from the spec: the per-email outcome reported by batch
execution — each email's id with either its response or its error (spec
sections 5 and 7). -/
structure ExecOutcome where
  email_id : String
  result : Except ExecError ExecResponse

/-- The job lifecycle states (spec section 4.7). -/
inductive JobStatus where
  | queued
  | running
  | completed
  | failed
deriving DecidableEq

/-- Modelled from the spec: batch execution runs the per-email step on every
email and reports each outcome independently; a failing step yields that
email's error entry and touches nothing else (spec sections 5 and 7). -/
def batchExecute (step : Email → Except ExecError ExecResponse) (emails : List Email) :
    List ExecOutcome :=
  emails.map fun e => { email_id := e.id, result := step e }

/-- Modelled from the spec: the surrounding batch job completes regardless of
per-item failures (spec section 7: per-item failures never abort the batch). -/
def runBatchJob (step : Email → Except ExecError ExecResponse) (emails : List Email) :
    JobStatus × List ExecOutcome :=
  (JobStatus.completed, batchExecute step emails)

/-- The provenance contribution kinds (spec section 3). -/
inductive ContributionType where
  | initial_learning
  | evolution
deriving DecidableEq

/-- The `SkillSourceEmail` provenance edge (spec section 3). -/
structure SourceEdge where
  skill_id : String
  email_id : String
  contribution_type : ContributionType
deriving DecidableEq

/-- The `SkillChangeLog` append-only entry (spec section 3); `change_type`
carries the characterization of the applied delta. -/
structure ChangeLogEntry where
  skill_id : String
  timestamp : Nat
  change_type : String
  description : String
deriving DecidableEq

/-- The shared skill store: the skills plus the append-only provenance
edges (spec sections 2 and 3). -/
structure SkillStore where
  skills : List Skill
  edges : List SourceEdge
deriving DecidableEq

/-- Modelled from the spec: one rule candidate proposed by the model during
learning (spec section 4.5). -/
structure CandidateRule where
  name : String
  trigger_keywords : Finset String
  conditions : Finset String
  action_steps : List String
  response_template : String
  priority : Int
deriving DecidableEq

/-- Modelled from the spec: one skill candidate proposed by the model for a
category group, together with the ids of the source emails that contributed
(spec section 4.5). -/
structure CandidateSkill where
  name : String
  name_en : String
  category : String
  trigger_keywords : Finset String
  rules : List CandidateRule
  source_email_ids : List String
deriving DecidableEq

/-- Modelled from the spec: materialising a candidate rule as a stored rule. -/
def toRule (c : CandidateRule) : Rule :=
  { id := c.name
    name := c.name
    trigger_keywords := c.trigger_keywords
    conditions := c.conditions
    action_steps := c.action_steps
    response_template := c.response_template
    priority := c.priority
    usage_count := 0
    success_count := 0
    created_at := 0 }

/-- Modelled from the spec: a fresh skill created from a candidate (spec
section 4.5, "new Skills are created fresh"). -/
def newSkill (c : CandidateSkill) : Skill :=
  { id := c.name_en
    name := c.name
    name_en := c.name_en
    category := c.category
    trigger_keywords := c.trigger_keywords
    rules := c.rules.map toRule
    usage_count := 0
    success_count := 0
    is_active := true
    version := 1 }

/-- Modelled from the spec: a candidate is matched to an existing skill by
`name_en`, case-insensitively (spec section 4.5). -/
def skillMatches (s : Skill) (c : CandidateSkill) : Bool :=
  lowerString s.name_en == lowerString c.name_en

/-- Modelled from the spec: merging a candidate into an existing skill — new
rules are appended after deduplication by rule name, the keyword set is
extended by union, and the version is bumped exactly when something changed
(spec sections 3 and 4.5).  Returns the merged skill and the number of newly
extracted rules. -/
def mergeInto (s : Skill) (c : CandidateSkill) : Skill × Nat :=
  let newRules := c.rules.filter fun r => !(s.rules.any fun r0 => r0.name == r.name)
  let kw := s.trigger_keywords ∪ c.trigger_keywords
  ({ s with
      rules := s.rules ++ newRules.map toRule
      trigger_keywords := kw
      version := if newRules = [] ∧ kw = s.trigger_keywords then s.version else s.version + 1 },
   newRules.length)

/-- Modelled from the spec: the provenance edges a candidate contributes,
one per source email, with `contribution_type = initial_learning` (spec
section 4.5). -/
def candidateEdges (c : CandidateSkill) : List SourceEdge :=
  c.source_email_ids.map fun eid =>
    { skill_id := c.name_en, email_id := eid, contribution_type := .initial_learning }

/-- Modelled from the spec: appending one provenance edge only when it is not
already recorded (spec section 4.5, idempotence requirement). -/
def addEdge (edges : List SourceEdge) (e : SourceEdge) : List SourceEdge :=
  if e ∈ edges then edges else edges ++ [e]

/-- Modelled from the spec: recording a batch of provenance edges. -/
def addEdges (edges : List SourceEdge) (es : List SourceEdge) : List SourceEdge :=
  es.foldl addEdge edges

/-- Modelled from the spec: merging one candidate into the store (spec
section 4.5).  When some skill matches by `name_en` the candidate is merged
into the matching skills; otherwise a fresh skill is created.  Returns the
new store, the number of skills created and the number of rules extracted. -/
def learnOne (st : SkillStore) (c : CandidateSkill) : SkillStore × Nat × Nat :=
  if st.skills.any fun s => skillMatches s c then
    ({ skills := st.skills.map fun s => if skillMatches s c then (mergeInto s c).1 else s
       edges := addEdges st.edges (candidateEdges c) },
     0,
     (st.skills.map fun s => if skillMatches s c then (mergeInto s c).2 else 0).sum)
  else
    ({ skills := st.skills ++ [newSkill c]
       edges := addEdges st.edges (candidateEdges c) },
     1, c.rules.length)

/-- Modelled from the spec: a LearningJob run over the candidate list the
model proposed for the (grouped) email set, merging candidate after
candidate (spec section 4.5).  The proposal step is the external model call;
for a fixed email set it is a fixed candidate list.  Returns the final store
with the totals `(skills_created, rules_extracted)`. -/
def learningRun (cands : List CandidateSkill) (st : SkillStore) : SkillStore × Nat × Nat :=
  match cands with
  | [] => (st, 0, 0)
  | c :: rest =>
    let r1 := learnOne st c
    let r2 := learningRun rest r1.1
    (r2.1, r1.2.1 + r2.2.1, r1.2.2 + r2.2.2)

/-- Modelled from the spec: the characterization of one draft delta by the
model (spec section 4.6). -/
inductive ChangeKind where
  | keyword_addition
  | rule_refinement
  | template_adjustment
  | no_signal
deriving DecidableEq

/-- Modelled from the spec: one structural delta between the AI draft and the
human-edited draft, already characterized by the model (spec section 4.6). -/
structure DraftDelta where
  description : String
  kind : ChangeKind
deriving DecidableEq

/-- The `Reply` record of the data model (spec section 3). -/
structure Reply where
  id : String
  email_id : String
  ai_draft : String
  human_edited : Option String
  matched_skill_ids : List String
  matched_rule_ids : List String
deriving DecidableEq

/-- Modelled from the spec: the result shape of an EvolutionJob run (spec
section 4.6). -/
structure EvolveResult where
  skill_updated : Bool
  changes : List DraftDelta
deriving DecidableEq

/-- Modelled from the spec: applying one accepted change to a skill bumps its
version (spec section 4.6; the content refinement itself is carried by the
change log and the rule updates, which the claims under proof do not
inspect). -/
def applyChange (s : Skill) (_d : DraftDelta) : Skill :=
  { s with version := s.version + 1 }

/-- Modelled from the spec: applying a list of accepted changes in order. -/
def applyChanges (s : Skill) (ds : List DraftDelta) : Skill :=
  ds.foldl applyChange s

/-- Modelled from the spec: the change-log entry recorded for one applied
change (spec section 4.6). -/
def changeEntry (sid : String) (now : Nat) (d : DraftDelta) : ChangeLogEntry :=
  { skill_id := sid
    timestamp := now
    change_type :=
      match d.kind with
      | .keyword_addition => "keyword_addition"
      | .rule_refinement => "rule_refinement"
      | .template_adjustment => "template_adjustment"
      | .no_signal => "no_signal"
    description := d.description }

/-- Modelled from the spec: an EvolutionJob run (spec section 4.6).  With no
matched skill the run is a no-op; otherwise the non-`no_signal` deltas are
applied to the originating skill, one change-log entry is appended per
applied change, and an `evolution` provenance edge is recorded. -/
def evolutionRun (reply : Reply) (deltas : List DraftDelta) (st : SkillStore)
    (log : List ChangeLogEntry) (now : Nat) :
    EvolveResult × SkillStore × List ChangeLogEntry :=
  match reply.matched_skill_ids with
  | [] => ({ skill_updated := false, changes := [] }, st, log)
  | sid :: _ =>
    let applied := deltas.filter fun d => !(d.kind == ChangeKind.no_signal)
    if applied = [] then ({ skill_updated := false, changes := [] }, st, log)
    else
      ({ skill_updated := true, changes := applied },
       { skills := st.skills.map fun s => if s.id == sid then applyChanges s applied else s
         edges := addEdge st.edges
           { skill_id := sid, email_id := reply.email_id, contribution_type := .evolution } },
       log ++ applied.map (changeEntry sid now))

/-! ## Concrete fixtures used by witnesses -/

/-- A minimal customer-service email fixture with the given id. -/
def sampleEmail (i : String) : Email :=
  { id := i, sender := "customer@example.com", subject := "设备温度报警",
    body := "我的设备显示温度红灯，怎么办？", received_at := "2026-01-15T10:00:00Z",
    category := none, is_customer_service := true, processed := false }

/-- A batch of ten email fixtures. -/
def sampleEmails : List Email :=
  ["m0", "m1", "m2", "m3", "m4", "m5", "m6", "m7", "m8", "m9"].map sampleEmail

/-- A per-email step that always succeeds. -/
def stepOk : Email → Except ExecError ExecResponse := fun _ =>
  .ok { status := .draft_ready, matched_skills := [], matched_rules := [],
        response := "draft", confidence := .medium, requires_review := true }

/-- A per-email step whose model call times out on the email `m3` and succeeds
elsewhere. -/
def stepTimeout : Email → Except ExecError ExecResponse := fun e =>
  if e.id == "m3" then .error (.classificationFailed "model call timed out") else stepOk e

/-- A rule-match fixture carrying the given score. -/
def rmOf (q : ℚ) : RuleMatch :=
  { skill_id := "equipment-fault-handler", rule_id := "rule_1", score := q,
    matched_keywords := ∅, priority := 10, created_at := 0 }

/-- The rule fixture from the spec scenario: keywords `{红灯, 报警}`. -/
def ruleRed : Rule :=
  { id := "rule_1", name := "温度计红灯", trigger_keywords := {"红灯", "报警"},
    conditions := ∅, action_steps := [], response_template := "尊敬的客户您好",
    priority := 10, usage_count := 0, success_count := 0, created_at := 0 }

/-- A learning candidate fixture. -/
def cand0 : CandidateSkill :=
  { name := "设备故障处理", name_en := "equipment-fault-handler",
    category := "equipment-fault", trigger_keywords := {"红灯", "报警"},
    rules := [{ name := "温度计红灯", trigger_keywords := {"红灯", "报警"},
                conditions := ∅, action_steps := ["停止使用"],
                response_template := "尊敬的客户您好", priority := 10 }],
    source_email_ids := ["m0", "m1"] }

/-- A stored-skill fixture at version 3. -/
def skill0 : Skill :=
  { id := "s1", name := "设备故障处理", name_en := "equipment-fault-handler",
    category := "equipment-fault", trigger_keywords := {"红灯"},
    rules := [], usage_count := 0, success_count := 0, is_active := true, version := 3 }

/-- A reply fixture matched to skill `s1`. -/
def reply0 : Reply :=
  { id := "r1", email_id := "m0", ai_draft := "draft", human_edited := some "edited",
    matched_skill_ids := ["s1"], matched_rule_ids := ["rule_1"] }

/-- Two draft deltas, one applicable and one carrying no signal. -/
def deltas0 : List DraftDelta :=
  [{ description := "soften the tone", kind := .template_adjustment },
   { description := "unchanged greeting", kind := .no_signal }]

/-- A store fixture holding `skill0` and no provenance edges. -/
def st0 : SkillStore := { skills := [skill0], edges := [] }

/-- Proof-side predicate: the skill already carries every rule name and every
trigger keyword of the candidate. -/
def skillAbsorbs (s : Skill) (c : CandidateSkill) : Prop :=
  (∀ r ∈ c.rules, ∃ r0 ∈ s.rules, r0.name = r.name) ∧
    c.trigger_keywords ⊆ s.trigger_keywords

/-- Proof-side predicate: the store already holds everything the candidate
would contribute — some skill matches it, every matching skill absorbs it,
and all its provenance edges are recorded. -/
def absorbed (st : SkillStore) (c : CandidateSkill) : Prop :=
  (∃ s ∈ st.skills, skillMatches s c = true)
  ∧ (∀ s ∈ st.skills, skillMatches s c = true → skillAbsorbs s c)
  ∧ (∀ e ∈ candidateEdges c, e ∈ st.edges)

/-! ## Helper lemmas -/

theorem list_map_id_of {α : Type} (l : List α) (f : α → α) (h : ∀ x ∈ l, f x = x) :
    l.map f = l := by
  induction l with
  | nil => rfl
  | cons a t ih => simp_all

theorem length_filter_partition (emails : List InboxEmail) :
    (emails.filter fun e => !e.processed).length
      + (emails.filter fun e => e.processed).length = emails.length := by
  induction emails with
  | nil => rfl
  | cons a t ih =>
    by_cases h : a.processed <;> simp [List.filter_cons, h] <;> omega

/-! ## Claim theorems -/

/-- Claim C8: in the frontend inbox the `pending` filter shows exactly the
emails with `processed = false`, the `processed` filter exactly those with
`processed = true`, `all` shows every email, and the Pending and Done tab
counts sum to the All count. -/
theorem inbox_filter_partition (emails : List InboxEmail) :
    (∀ e, e ∈ filteredEmails EmailFilter.pending emails ↔ e ∈ emails ∧ e.processed = false)
    ∧ (∀ e, e ∈ filteredEmails EmailFilter.processed emails ↔ e ∈ emails ∧ e.processed = true)
    ∧ filteredEmails EmailFilter.all emails = emails
    ∧ tabCount EmailFilter.pending emails + tabCount EmailFilter.processed emails
        = tabCount EmailFilter.all emails := by
  refine ⟨?_, ?_, ?_, ?_⟩
  · intro e; simp [filteredEmails, List.mem_filter]
  · intro e; simp [filteredEmails, List.mem_filter]
  · simp [filteredEmails]
  · simpa [tabCount] using length_filter_partition emails

/-- Claim C9 fails as stated: with `sync_range` present but equal to the empty
string and `syncRange` present as `"7days"`, the body's `sync_range` is the
camelCase value, not the snake_case one — JavaScript `||` lets falsy values
fall through. -/
theorem syncEmails_snake_precedence_cex :
    (syncEmailsBody (SyncEmailsArg.obj
        { count := none, syncRange := some "7days", sync_range := some "",
          fromDate := none, from_date := none, toDate := none, to_date := none })).sync_range
      = some "7days"
    ∧ some "7days" ≠ some ("" : String) := by
  constructor
  · rfl
  · decide

/-- Claim C9 (amended): a numeric argument produces exactly `{count: n}`; for
an object argument `count` defaults to 500 when absent or 0, and each
snake_case field wins over its camelCase counterpart exactly when it is
present and non-empty, falling back to the camelCase field when absent or
empty (JavaScript `||` semantics). -/
theorem syncEmailsBody_spec :
    (∀ n : Int, syncEmailsBody (SyncEmailsArg.num n)
        = { count := some n, sync_range := none, from_date := none, to_date := none })
    ∧ ∀ o : SyncOptionsObj,
        ((o.count = none ∨ o.count = some 0) →
          (syncEmailsBody (SyncEmailsArg.obj o)).count = some 500)
        ∧ (∀ c : Int, o.count = some c → c ≠ 0 →
          (syncEmailsBody (SyncEmailsArg.obj o)).count = some c)
        ∧ (∀ s : String, o.sync_range = some s → s ≠ "" →
          (syncEmailsBody (SyncEmailsArg.obj o)).sync_range = some s)
        ∧ ((o.sync_range = none ∨ o.sync_range = some "") →
          (syncEmailsBody (SyncEmailsArg.obj o)).sync_range = o.syncRange)
        ∧ (∀ s : String, o.from_date = some s → s ≠ "" →
          (syncEmailsBody (SyncEmailsArg.obj o)).from_date = some s)
        ∧ ((o.from_date = none ∨ o.from_date = some "") →
          (syncEmailsBody (SyncEmailsArg.obj o)).from_date = o.fromDate)
        ∧ (∀ s : String, o.to_date = some s → s ≠ "" →
          (syncEmailsBody (SyncEmailsArg.obj o)).to_date = some s)
        ∧ ((o.to_date = none ∨ o.to_date = some "") →
          (syncEmailsBody (SyncEmailsArg.obj o)).to_date = o.toDate) := by
  refine ⟨fun n => rfl, fun o => ⟨?_, ?_, ?_, ?_, ?_, ?_, ?_, ?_⟩⟩
  · rintro (h | h) <;> simp [syncEmailsBody, jsOrInt, h]
  · intro c hc hne; simp [syncEmailsBody, jsOrInt, hc, hne]
  · intro s hs hne; simp [syncEmailsBody, jsOrStr, hs, hne]
  · rintro (h | h) <;> simp [syncEmailsBody, jsOrStr, h]
  · intro s hs hne; simp [syncEmailsBody, jsOrStr, hs, hne]
  · rintro (h | h) <;> simp [syncEmailsBody, jsOrStr, h]
  · intro s hs hne; simp [syncEmailsBody, jsOrStr, hs, hne]
  · rintro (h | h) <;> simp [syncEmailsBody, jsOrStr, h]

/-- Witness for the amended claim C9 at a concrete options object. -/
theorem syncEmailsBody_spec_witness :
    (syncEmailsBody (SyncEmailsArg.obj
        { count := none, syncRange := some "custom", sync_range := some "7days",
          fromDate := some "2026-01-01", from_date := none,
          toDate := none, to_date := some "2026-02-01" })).sync_range
      = some "7days" :=
  (syncEmailsBody_spec.2
      { count := none, syncRange := some "custom", sync_range := some "7days",
        fromDate := some "2026-01-01", from_date := none,
        toDate := none, to_date := some "2026-02-01" }).2.2.1
    "7days" rfl (by decide)

/-- Claim C7: `match` is a deterministic, side-effect-free function of the
email, the category and the skill set — two invocations on identical inputs
return the identical ranked list.  In this embedding `matchEngine` is a pure
function, so determinism is definitional. -/
theorem matchEngine_deterministic (email : Email) (category : Option String)
    (skills : List Skill) :
    matchEngine email category skills = matchEngine email category skills := rfl

/-- Claim C1 is contradicted by the declared API type: the `confidence` field
of the `generateReply` response is a raw number, so no three-element value
set can cover every well-typed response — four responses with pairwise
distinct numeric confidences already exceed any such set. -/
theorem generateReply_confidence_exceeds_enum (S : Finset ℚ) (h : S.card ≤ 3) :
    ∃ r : GenerateReplyResponse, r.confidence ∉ S := by
  by_contra hc
  push_neg at hc
  have hsub : ({0, 1/2, 3/5, 9/10} : Finset ℚ) ⊆ S := by
    intro x hx
    exact hc { email_id := "m0", reply_id := "r1", ai_draft := "draft",
               matched_skills := [], confidence := x, requires_review := true }
  have hcard : ({0, 1/2, 3/5, 9/10} : Finset ℚ).card = 4 := by norm_num
  have hle := Finset.card_le_card hsub
  rw [hcard] at hle
  omega

/-- Witness for C1's theorem at the concrete three-element set `{1, 1/2, 0}`. -/
theorem generateReply_confidence_exceeds_enum_witness :
    ({1, 1/2, 0} : Finset ℚ).card ≤ 3
    ∧ ∃ r : GenerateReplyResponse, r.confidence ∉ ({1, 1/2, 0} : Finset ℚ) :=
  ⟨by norm_num, generateReply_confidence_exceeds_enum _ (by norm_num)⟩

/-- Claim C6: batch execution reports every email's outcome independently —
the result list always has one entry per email, the entry at each position
depends only on that email and the step's behaviour on it (a failure of any
other per-email step leaves it unaffected), and the batch job completes. -/
theorem batchExecute_isolated (step : Email → Except ExecError ExecResponse)
    (emails : List Email) :
    (runBatchJob step emails).1 = JobStatus.completed
    ∧ (batchExecute step emails).length = emails.length
    ∧ (∀ i : Nat, (batchExecute step emails)[i]? =
        emails[i]?.map fun e => { email_id := e.id, result := step e })
    ∧ ∀ (stepB : Email → Except ExecError ExecResponse) (i : Nat),
        (∀ e, emails[i]? = some e → stepB e = step e) →
        (batchExecute stepB emails)[i]? = (batchExecute step emails)[i]? := by
  refine ⟨rfl, by simp [batchExecute], ?_, ?_⟩
  · intro i; simp [batchExecute, List.getElem?_map]
  · intro stepB i hagree
    simp only [batchExecute, List.getElem?_map]
    cases h : emails[i]? with
    | none => rfl
    | some e => simp [hagree e h]

/-- Witness for C6: in a ten-email batch where the model call for `m3` times
out, the outcome at position 7 is the same as under the fully-successful
step. -/
theorem batchExecute_isolated_witness :
    (batchExecute stepTimeout sampleEmails)[7]? = (batchExecute stepOk sampleEmails)[7]? :=
  (batchExecute_isolated stepOk sampleEmails).2.2.2 stepTimeout 7 (by
    intro e he
    simp [sampleEmails, sampleEmail] at he
    subst he
    simp [stepTimeout, sampleEmail])

theorem topScore_lt_of_forall {results : List RuleMatch} {c : ℚ} (hc : 0 < c)
    (h : ∀ r ∈ results, r.score < c) : topScore results < c := by
  induction results with
  | nil => simpa [topScore] using hc
  | cons a t ih =>
    simp only [topScore, List.map_cons, List.foldr_cons]
    exact max_lt (h a (List.mem_cons_self a t))
      (ih fun r hr => h r (List.mem_cons_of_mem a hr))

theorem any_clears_of_topScore {results : List RuleMatch} {c : ℚ}
    (hthr : MATCH_THRESHOLD ≤ c) (h : c ≤ topScore results) :
    (results.any fun r => decide (MATCH_THRESHOLD ≤ r.score)) = true := by
  by_contra hany
  have hfalse : (results.any fun r => decide (MATCH_THRESHOLD ≤ r.score)) = false :=
    Bool.eq_false_iff.mpr hany
  have hall : ∀ r ∈ results, r.score < MATCH_THRESHOLD := by
    intro r hr
    simpa using List.any_eq_false.mp hfalse r hr
  have hpos : (0 : ℚ) < MATCH_THRESHOLD := by norm_num [MATCH_THRESHOLD]
  have hlt := topScore_lt_of_forall hpos hall
  exact absurd (lt_of_le_of_lt h (lt_of_lt_of_le hlt hthr)) (lt_irrefl c)

/-- Claim C3: EscalationPolicy maps a top score of at least 0.8 to
`draft_ready` with confidence `high`, a top score in `[0.5, 0.8)` to
`draft_ready` with confidence `medium`, and the absence of any result
clearing `MATCH_THRESHOLD` to `escalate_to_human` with confidence `low`. -/
theorem escalationPolicy_buckets (results : List RuleMatch) :
    (HIGH_CONFIDENCE ≤ topScore results →
      escalationPolicy MATCH_THRESHOLD HIGH_CONFIDENCE results
        = (ExecStatus.draft_ready, Confidence.high))
    ∧ (MATCH_THRESHOLD ≤ topScore results → topScore results < HIGH_CONFIDENCE →
      escalationPolicy MATCH_THRESHOLD HIGH_CONFIDENCE results
        = (ExecStatus.draft_ready, Confidence.medium))
    ∧ ((∀ r ∈ results, r.score < MATCH_THRESHOLD) →
      escalationPolicy MATCH_THRESHOLD HIGH_CONFIDENCE results
        = (ExecStatus.escalate_to_human, Confidence.low)) := by
  refine ⟨?_, ?_, ?_⟩
  · intro h
    have hany := any_clears_of_topScore
      (by norm_num [MATCH_THRESHOLD, HIGH_CONFIDENCE]) h
    simp [escalationPolicy, hany, h]
  · intro h1 h2
    have hany := any_clears_of_topScore (le_refl MATCH_THRESHOLD) h1
    simp [escalationPolicy, hany, not_le.mpr h2]
  · intro h
    have hany : (results.any fun r => decide (MATCH_THRESHOLD ≤ r.score)) = false := by
      rw [List.any_eq_false]
      intro r hr
      simpa using not_le.mpr (h r hr)
    simp [escalationPolicy, hany]

/-- Witness for C3 at the spec's concrete scores: 0.9 yields
`draft_ready`/high, 0.6 yields `draft_ready`/medium and 0.3 yields
`escalate_to_human`/low. -/
theorem escalationPolicy_buckets_witness :
    escalationPolicy MATCH_THRESHOLD HIGH_CONFIDENCE [rmOf (9/10)]
      = (ExecStatus.draft_ready, Confidence.high)
    ∧ escalationPolicy MATCH_THRESHOLD HIGH_CONFIDENCE [rmOf (6/10)]
      = (ExecStatus.draft_ready, Confidence.medium)
    ∧ escalationPolicy MATCH_THRESHOLD HIGH_CONFIDENCE [rmOf (3/10)]
      = (ExecStatus.escalate_to_human, Confidence.low) :=
  ⟨(escalationPolicy_buckets [rmOf (9/10)]).1
      (by norm_num [topScore, rmOf, HIGH_CONFIDENCE, le_max_iff]),
   (escalationPolicy_buckets [rmOf (6/10)]).2.1
      (by norm_num [topScore, rmOf, MATCH_THRESHOLD, le_max_iff])
      (by norm_num [topScore, rmOf, HIGH_CONFIDENCE, max_lt_iff]),
   (escalationPolicy_buckets [rmOf (3/10)]).2.2
      (by
        intro r hr
        rw [List.mem_singleton] at hr
        subst hr
        norm_num [rmOf, MATCH_THRESHOLD])⟩

/-- Claim C2: for a rule with non-empty `trigger_keywords` the match score is
`|matched_keywords ∩ email_tokens| / |rule.trigger_keywords|`, lies in
`[0, 1]`, and grows monotonically with the token set; and every score in a
MatchEngine result list is such a rule score. -/
theorem match_score_spec :
    (∀ (tokens : Finset String) (r : Rule), r.trigger_keywords.Nonempty →
      ruleScore r tokens
          = ((matchedKeywords r tokens ∩ tokens).card : ℚ) / (r.trigger_keywords.card : ℚ)
        ∧ 0 ≤ ruleScore r tokens
        ∧ ruleScore r tokens ≤ 1
        ∧ ∀ tokens' : Finset String, tokens ⊆ tokens' →
            ruleScore r tokens ≤ ruleScore r tokens')
    ∧ ∀ (email : Email) (category : Option String) (skills : List Skill),
        ∀ m ∈ matchEngine email category skills,
          ∃ s ∈ skills, ∃ ru ∈ s.rules,
            m.score = ruleScore ru (emailTokens email.body)
            ∧ m.matched_keywords = matchedKeywords ru (emailTokens email.body) := by
  constructor
  · intro tokens r hne
    have hpos : (0 : ℚ) < (r.trigger_keywords.card : ℚ) := by
      exact_mod_cast Finset.card_pos.mpr hne
    refine ⟨?_, ?_, ?_, ?_⟩
    · simp [ruleScore, matchedKeywords, Finset.inter_assoc]
    · exact div_nonneg (by positivity) hpos.le
    · rw [ruleScore, div_le_one hpos]
      exact_mod_cast Finset.card_le_card Finset.inter_subset_left
    · intro tokens' hsub
      apply div_le_div_of_nonneg_right ?_ hpos.le
      exact_mod_cast Finset.card_le_card
        (Finset.inter_subset_inter (Finset.Subset.refl _) hsub)
  · intro email category skills m hm
    rw [matchEngine, List.mem_mergeSort, List.mem_flatMap] at hm
    obtain ⟨s, hs, hmem⟩ := hm
    obtain ⟨ru, hru, heq⟩ := List.mem_map.mp hmem
    exact ⟨s, (List.mem_filter.mp hs).1, ru, hru, by rw [← heq], by rw [← heq]⟩

/-- Witness for C2 at the spec's scenario rule `{红灯, 报警}` against a token
set containing both keywords. -/
theorem match_score_spec_witness :
    ruleScore ruleRed {"红灯", "报警", "设备"} ≤ 1
    ∧ 0 ≤ ruleScore ruleRed {"红灯", "报警", "设备"} :=
  ⟨(match_score_spec.1 {"红灯", "报警", "设备"} ruleRed (by decide)).2.2.1,
   (match_score_spec.1 {"红灯", "报警", "设备"} ruleRed (by decide)).2.1⟩

/-- Claim C10: the translation function returns the current language's string
for a key defined (and non-empty) there, otherwise the English string,
otherwise the key itself; and every declared translation key is defined
non-empty in every language, so `t` never falls back to `undefined`. -/
theorem t_total_fallback (lang : Language) (key : String) :
    (∀ s : String, lookupTr lang key = some s → s ≠ "" → t lang key = s)
    ∧ (lookupTr lang key = none →
        ∀ s : String, lookupTr Language.en key = some s → s ≠ "" → t lang key = s)
    ∧ (lookupTr lang key = none → lookupTr Language.en key = none → t lang key = key)
    ∧ (key ∈ translationKeys → (lookupTr lang key).getD "" ≠ "") := by
  refine ⟨?_, ?_, ?_, ?_⟩
  · intro s hs hne; simp [t, jsFallback, hs, hne]
  · intro h0 s hs hne; simp [t, jsFallback, h0, hs, hne]
  · intro h0 h1; simp [t, jsFallback, h0, h1]
  · have htot : ∀ k ∈ translationKeys, (lookupTr lang k).getD "" ≠ "" := by
      cases lang <;> decide
    exact htot key

/-- Witness for C10: the Japanese translation of `connected` is returned
directly. -/
theorem t_total_fallback_witness :
    lookupTr Language.ja "connected" = some "接続済み"
    ∧ t Language.ja "connected" = "接続済み" :=
  ⟨rfl, (t_total_fallback Language.ja "connected").1 "接続済み" rfl (by decide)⟩

theorem applyChanges_version (s : Skill) (ds : List DraftDelta) :
    (applyChanges s ds).version = s.version + ds.length := by
  induction ds generalizing s with
  | nil => rfl
  | cons d ds ih =>
    have h := ih (applyChange s d)
    simp only [applyChanges, List.foldl_cons] at h ⊢
    rw [h]
    simp only [applyChange, List.length_cons]
    omega

theorem applyChanges_id (s : Skill) (ds : List DraftDelta) :
    (applyChanges s ds).id = s.id := by
  induction ds generalizing s with
  | nil => rfl
  | cons d ds ih =>
    have h := ih (applyChange s d)
    simp only [applyChanges, List.foldl_cons] at h ⊢
    rw [h]
    rfl

theorem mergeInto_version_mono (s : Skill) (c : CandidateSkill) :
    s.version ≤ (mergeInto s c).1.version
    ∧ ((mergeInto s c).1 ≠ s → s.version < (mergeInto s c).1.version) := by
  by_cases h : (c.rules.filter fun r => !(s.rules.any fun r0 => r0.name == r.name)) = []
      ∧ s.trigger_keywords ∪ c.trigger_keywords = s.trigger_keywords
  · have heq : (mergeInto s c).1 = s := by
      simp only [mergeInto]
      rw [h.1, h.2, if_pos ⟨rfl, rfl⟩]
      simp
    exact ⟨le_of_eq (congrArg Skill.version heq).symm, fun hne => absurd heq hne⟩
  · have hv : (mergeInto s c).1.version = s.version + 1 := by
      simp only [mergeInto]
      rw [if_neg h]
    exact ⟨by rw [hv]; omega, fun _ => by rw [hv]; omega⟩

/-- Claim C5: no operation decreases a skill's version — a learning merge and
an evolution run leave it unchanged or strictly larger, any mutation (a
result different from the input skill) strictly increases it — and an
EvolutionJob run appends exactly one change-log entry per applied change. -/
theorem evolution_version_monotone (reply : Reply) (deltas : List DraftDelta)
    (st : SkillStore) (log : List ChangeLogEntry) (now : Nat) :
    (∀ s ∈ st.skills, ∃ s' ∈ (evolutionRun reply deltas st log now).2.1.skills,
        s'.id = s.id ∧ s.version ≤ s'.version ∧ (s' ≠ s → s.version < s'.version))
    ∧ (∃ sid : String, (evolutionRun reply deltas st log now).2.2
        = log ++ (evolutionRun reply deltas st log now).1.changes.map (changeEntry sid now))
    ∧ ∀ (s : Skill) (c : CandidateSkill),
        s.version ≤ (mergeInto s c).1.version
        ∧ ((mergeInto s c).1 ≠ s → s.version < (mergeInto s c).1.version) := by
  refine ⟨?_, ?_, fun s c => mergeInto_version_mono s c⟩
  · intro s hs
    rcases hm : reply.matched_skill_ids with _ | ⟨sid, rest⟩
    · exact ⟨s, by simp [evolutionRun, hm, hs], rfl, le_refl _, fun hne => absurd rfl hne⟩
    · by_cases happ : (deltas.filter fun d => !(d.kind == ChangeKind.no_signal)) = []
      · exact ⟨s, by simp [evolutionRun, hm, happ, hs], rfl, le_refl _, fun hne => absurd rfl hne⟩
      · have hlen : 0 < (deltas.filter fun d => !(d.kind == ChangeKind.no_signal)).length :=
          List.length_pos.mpr happ
        refine ⟨if s.id == sid
            then applyChanges s (deltas.filter fun d => !(d.kind == ChangeKind.no_signal))
            else s, ?_, ?_, ?_, ?_⟩
        · simp only [evolutionRun, hm, if_neg happ]
          exact List.mem_map_of_mem _ hs
        · by_cases hid : s.id == sid <;> simp [hid, applyChanges_id]
        · by_cases hid : s.id == sid <;> simp [hid, applyChanges_version]
        · intro hne
          by_cases hid : s.id == sid
          · simp [hid, applyChanges_version]
            omega
          · simp [hid] at hne
  · rcases hm : reply.matched_skill_ids with _ | ⟨sid, rest⟩
    · exact ⟨"", by simp [evolutionRun, hm]⟩
    · by_cases happ : (deltas.filter fun d => !(d.kind == ChangeKind.no_signal)) = []
      · exact ⟨sid, by simp [evolutionRun, hm, happ]⟩
      · exact ⟨sid, by simp [evolutionRun, hm, happ]⟩

/-- Witness for C5 at the fixture store: the evolution run over `skill0`
yields a skill with the same id and a version at least 3, strictly larger if
changed. -/
theorem evolution_version_monotone_witness :
    ∃ s' ∈ (evolutionRun reply0 deltas0 st0 [] 5).2.1.skills,
      s'.id = skill0.id ∧ skill0.version ≤ s'.version
      ∧ (s' ≠ skill0 → skill0.version < s'.version) :=
  (evolution_version_monotone reply0 deltas0 st0 [] 5).1 skill0 (by simp [st0])

theorem mem_addEdge_self (edges : List SourceEdge) (e : SourceEdge) :
    e ∈ addEdge edges e := by
  by_cases h : e ∈ edges
  · simp [addEdge, h]
  · simp [addEdge, h]

theorem addEdge_mem_mono {edges : List SourceEdge} {e : SourceEdge}
    (h : e ∈ edges) (e' : SourceEdge) : e ∈ addEdge edges e' := by
  by_cases h' : e' ∈ edges
  · simpa [addEdge, h'] using h
  · simp [addEdge, h', h]

theorem addEdges_mem_mono {edges : List SourceEdge} {e : SourceEdge}
    (h : e ∈ edges) (es : List SourceEdge) : e ∈ addEdges edges es := by
  induction es generalizing edges with
  | nil => exact h
  | cons e' rest ih => exact ih (addEdge_mem_mono h e')

theorem mem_addEdges_of_mem {es : List SourceEdge} {e : SourceEdge}
    (h : e ∈ es) (edges : List SourceEdge) : e ∈ addEdges edges es := by
  induction es generalizing edges with
  | nil => cases h
  | cons e' rest ih =>
    rcases List.mem_cons.mp h with h | h
    · subst h
      exact addEdges_mem_mono (mem_addEdge_self edges e) rest
    · exact ih h _

theorem addEdges_of_all_mem {edges es : List SourceEdge}
    (h : ∀ e ∈ es, e ∈ edges) : addEdges edges es = edges := by
  induction es with
  | nil => rfl
  | cons e' rest ih =>
    have h1 : addEdge edges e' = edges := by
      simp [addEdge, h e' (List.mem_cons_self e' rest)]
    show addEdges (addEdge edges e') rest = edges
    rw [h1]
    exact ih fun e he => h e (List.mem_cons_of_mem e' he)

theorem addEdge_nodup {edges : List SourceEdge} (h : edges.Nodup)
    (e : SourceEdge) : (addEdge edges e).Nodup := by
  by_cases hm : e ∈ edges
  · simpa [addEdge, hm] using h
  · simp only [addEdge, if_neg hm, ← List.concat_eq_append]
    exact List.Nodup.concat hm h

theorem addEdges_nodup {edges : List SourceEdge} (h : edges.Nodup)
    (es : List SourceEdge) : (addEdges edges es).Nodup := by
  induction es generalizing edges with
  | nil => exact h
  | cons e' rest ih => exact ih (addEdge_nodup h e')

theorem skillMatches_mergeInto (s : Skill) (cm c : CandidateSkill) :
    skillMatches (mergeInto s cm).1 c = skillMatches s c := rfl

theorem mergeInto_absorbs (s : Skill) (c : CandidateSkill) :
    skillAbsorbs (mergeInto s c).1 c := by
  constructor
  · intro r hr
    by_cases hfresh : (s.rules.any fun r0 => r0.name == r.name) = true
    · obtain ⟨r0, hr0, hname⟩ := List.any_eq_true.mp hfresh
      exact ⟨r0, List.mem_append_left _ hr0, by simpa using hname⟩
    · refine ⟨toRule r, List.mem_append_right _ ?_, rfl⟩
      refine List.mem_map_of_mem _ (List.mem_filter.mpr ⟨hr, ?_⟩)
      simp [Bool.eq_false_iff.mpr hfresh]
  · exact Finset.subset_union_right

theorem skillAbsorbs_mergeInto_mono {s : Skill} {c : CandidateSkill}
    (h : skillAbsorbs s c) (cm : CandidateSkill) :
    skillAbsorbs (mergeInto s cm).1 c := by
  constructor
  · intro r hr
    obtain ⟨r0, hr0, heq⟩ := h.1 r hr
    exact ⟨r0, List.mem_append_left _ hr0, heq⟩
  · exact h.2.trans Finset.subset_union_left

theorem newSkill_absorbs (c : CandidateSkill) : skillAbsorbs (newSkill c) c :=
  ⟨fun r hr => ⟨toRule r, List.mem_map_of_mem _ hr, rfl⟩, Finset.Subset.refl _⟩

theorem mergeInto_of_absorbs {s : Skill} {c : CandidateSkill}
    (h : skillAbsorbs s c) : mergeInto s c = (s, 0) := by
  have hfilter : (c.rules.filter fun r => !(s.rules.any fun r0 => r0.name == r.name)) = [] := by
    rw [List.filter_eq_nil_iff]
    intro r hr
    obtain ⟨r0, hr0, heq⟩ := h.1 r hr
    have : (s.rules.any fun r0 => r0.name == r.name) = true :=
      List.any_eq_true.mpr ⟨r0, hr0, beq_iff_eq.mpr heq⟩
    simp [this]
  have hkw : s.trigger_keywords ∪ c.trigger_keywords = s.trigger_keywords :=
    Finset.union_eq_left.mpr h.2
  simp only [mergeInto]
  rw [hfilter, hkw, if_pos ⟨rfl, rfl⟩]
  simp

theorem learnOne_fst_absorbed (st : SkillStore) (c : CandidateSkill) :
    absorbed (learnOne st c).1 c := by
  by_cases hany : (st.skills.any fun s => skillMatches s c) = true
  · simp only [learnOne, if_pos hany]
    refine ⟨?_, ?_, ?_⟩
    · obtain ⟨s, hs, hm⟩ := List.any_eq_true.mp hany
      refine ⟨(mergeInto s c).1, ?_, ?_⟩
      · have harr : (fun s0 => if skillMatches s0 c then (mergeInto s0 c).1 else s0) s
            = (mergeInto s c).1 := by simp [hm]
        exact harr ▸ List.mem_map_of_mem _ hs
      · rw [skillMatches_mergeInto]; exact hm
    · intro s' hs' hm'
      obtain ⟨s0, hs0, heq⟩ := List.mem_map.mp hs'
      by_cases hm0 : skillMatches s0 c = true
      · rw [if_pos hm0] at heq
        rw [← heq]
        exact mergeInto_absorbs s0 c
      · rw [if_neg hm0] at heq
        rw [← heq] at hm'
        exact absurd hm' hm0
    · intro e he
      exact mem_addEdges_of_mem he st.edges
  · simp only [learnOne, if_neg hany]
    refine ⟨⟨newSkill c, List.mem_append_right _ (List.mem_singleton_self _), ?_⟩, ?_, ?_⟩
    · simp [skillMatches, newSkill]
    · intro s' hs' hm'
      rcases List.mem_append.mp hs' with h | h
      · have := List.any_eq_false.mp (Bool.eq_false_iff.mpr hany) s' h
        exact absurd hm' (by simpa using this)
      · rw [List.mem_singleton] at h
        subst h
        exact newSkill_absorbs c
    · intro e he
      exact mem_addEdges_of_mem he st.edges

theorem learnOne_preserves_absorbed {st : SkillStore} {c : CandidateSkill}
    (hc : absorbed st c) (cm : CandidateSkill) : absorbed (learnOne st cm).1 c := by
  obtain ⟨⟨s, hs, hm⟩, hall, hedges⟩ := hc
  by_cases hany : (st.skills.any fun s0 => skillMatches s0 cm) = true
  · simp only [learnOne, if_pos hany]
    refine ⟨?_, ?_, ?_⟩
    · refine ⟨(fun s0 => if skillMatches s0 cm then (mergeInto s0 cm).1 else s0) s,
        List.mem_map_of_mem _ hs, ?_⟩
      by_cases hm' : skillMatches s cm = true
      · simpa [hm', skillMatches_mergeInto] using hm
      · simpa [hm'] using hm
    · intro s' hs' hm'
      obtain ⟨s0, hs0, heq⟩ := List.mem_map.mp hs'
      by_cases hm0 : skillMatches s0 cm = true
      · rw [if_pos hm0] at heq
        rw [← heq] at hm' ⊢
        rw [skillMatches_mergeInto] at hm'
        exact skillAbsorbs_mergeInto_mono (hall s0 hs0 hm') cm
      · rw [if_neg hm0] at heq
        rw [← heq] at hm' ⊢
        exact hall s0 hs0 hm'
    · intro e he
      exact addEdges_mem_mono (hedges e he) _
  · simp only [learnOne, if_neg hany]
    refine ⟨⟨s, List.mem_append_left _ hs, hm⟩, ?_, fun e he => addEdges_mem_mono (hedges e he) _⟩
    intro s' hs' hm'
    rcases List.mem_append.mp hs' with h | h
    · exact hall s' h hm'
    · rw [List.mem_singleton] at h
      subst h
      exfalso
      have h1 : lowerString cm.name_en = lowerString c.name_en := by
        simpa [skillMatches, newSkill] using hm'
      have h2 : lowerString s.name_en = lowerString c.name_en := by
        simpa [skillMatches] using hm
      have h3 : skillMatches s cm = true := by
        simp [skillMatches, h1, h2]
      exact hany (List.any_eq_true.mpr ⟨s, hs, h3⟩)

theorem learnOne_of_absorbed {st : SkillStore} {c : CandidateSkill}
    (hc : absorbed st c) : learnOne st c = (st, 0, 0) := by
  obtain ⟨⟨s, hs, hm⟩, hall, hedges⟩ := hc
  have hany : (st.skills.any fun s0 => skillMatches s0 c) = true :=
    List.any_eq_true.mpr ⟨s, hs, hm⟩
  simp only [learnOne, if_pos hany]
  have hskills : st.skills.map
      (fun s0 => if skillMatches s0 c then (mergeInto s0 c).1 else s0) = st.skills := by
    apply list_map_id_of
    intro s0 hs0
    by_cases hm0 : skillMatches s0 c = true
    · rw [if_pos hm0]
      exact congrArg Prod.fst (mergeInto_of_absorbs (hall s0 hs0 hm0))
    · rw [if_neg hm0]
  have hsum : (st.skills.map fun s0 => if skillMatches s0 c then (mergeInto s0 c).2 else 0).sum
      = 0 := by
    apply List.sum_eq_zero
    intro x hx
    obtain ⟨s0, hs0, heq⟩ := List.mem_map.mp hx
    rw [← heq]
    by_cases hm0 : skillMatches s0 c = true
    · rw [if_pos hm0]
      exact congrArg Prod.snd (mergeInto_of_absorbs (hall s0 hs0 hm0))
    · rw [if_neg hm0]
  rw [hskills, hsum, addEdges_of_all_mem hedges]

theorem learningRun_preserves_absorbed {st : SkillStore} {c : CandidateSkill}
    (hc : absorbed st c) (cands : List CandidateSkill) :
    absorbed (learningRun cands st).1 c := by
  induction cands generalizing st with
  | nil => exact hc
  | cons cm rest ih =>
    simp only [learningRun]
    exact ih (learnOne_preserves_absorbed hc cm)

theorem learningRun_fst_absorbed_all (cands : List CandidateSkill) (st : SkillStore) :
    ∀ c ∈ cands, absorbed (learningRun cands st).1 c := by
  induction cands generalizing st with
  | nil => intro c h; cases h
  | cons cm rest ih =>
    intro c hc
    simp only [learningRun]
    rcases List.mem_cons.mp hc with h | h
    · subst h
      exact learningRun_preserves_absorbed (learnOne_fst_absorbed st c) rest
    · exact ih _ c h

theorem learningRun_of_all_absorbed {st : SkillStore} {cands : List CandidateSkill}
    (h : ∀ c ∈ cands, absorbed st c) : learningRun cands st = (st, 0, 0) := by
  induction cands with
  | nil => rfl
  | cons cm rest ih =>
    simp only [learningRun]
    rw [learnOne_of_absorbed (h cm (List.mem_cons_self cm rest))]
    rw [ih fun c hc => h c (List.mem_cons_of_mem cm hc)]
    rfl

theorem learnOne_edges_nodup {st : SkillStore} (h : st.edges.Nodup)
    (c : CandidateSkill) : (learnOne st c).1.edges.Nodup := by
  by_cases hany : (st.skills.any fun s => skillMatches s c) = true
  · simp only [learnOne, if_pos hany]
    exact addEdges_nodup h _
  · simp only [learnOne, if_neg hany]
    exact addEdges_nodup h _

theorem learningRun_edges_nodup {st : SkillStore} (h : st.edges.Nodup)
    (cands : List CandidateSkill) : (learningRun cands st).1.edges.Nodup := by
  induction cands generalizing st with
  | nil => exact h
  | cons cm rest ih =>
    simp only [learningRun]
    exact ih (learnOne_edges_nodup h cm)

/-- Claim C4: running the learning merge a second time over the same candidate
list (the model's proposal for an unchanged email set) and the resulting
skill state returns `skills_created = 0` and `rules_extracted = 0` and leaves
the store — its rules and its provenance edges — completely unchanged; the
provenance edge list also stays duplicate-free. -/
theorem learningRun_idempotent (cands : List CandidateSkill) (st : SkillStore) :
    learningRun cands (learningRun cands st).1 = ((learningRun cands st).1, 0, 0)
    ∧ (st.edges.Nodup → (learningRun cands st).1.edges.Nodup) :=
  ⟨learningRun_of_all_absorbed (learningRun_fst_absorbed_all cands st),
   fun h => learningRun_edges_nodup h cands⟩

/-- Witness for C4 at a concrete one-candidate learning run from the empty
store. -/
theorem learningRun_idempotent_witness :
    (learningRun [cand0] { skills := [], edges := [] }).1.edges.Nodup :=
  (learningRun_idempotent [cand0] { skills := [], edges := [] }).2 (by simp)

end MailMind
